import Mathlib

/-!
# gcsfuse: cache-control decorator, file-handle reader cache, explicit directory inode

A shallow embedding of

* `internal/gcsx/cache_bucket.go`   (`cacheBucket.CreateObject`, `cacheBucket.ComposeObjects`),
* `internal/fs/handle/file.go`      (`FileHandle.Read`, `FileHandle.tryEnsureReader`),
* `internal/fs/inode/explicit_dir.go` (`NewExplicitDirInode`, `SourceGeneration`),

followed by theorems about them.

Conventions.  Go `int64`/`int` values are `Int`.  Go strings are modelled by Lean
strings: the only bytes the code inspects are the ASCII bytes `.` and `/`, which never
occur inside a multi-byte UTF-8 sequence, so scanning characters and scanning bytes agree
on every valid UTF-8 name.  A Go `(value, error)` result is a pair whose error component
is an `Option GoError`, `none` standing for `nil`.
-/

namespace Gcsfuse

/-! ## Go errors -/

/-- Go error values, as far as the code distinguishes them: the sentinel `io.EOF`, an
error that wraps nothing, and the result of `fmt.Errorf(pre ++ "%w", inner)`. -/
inductive GoError where
  | eof : GoError
  | leaf (msg : String) : GoError
  | wrapf (pre : String) (inner : GoError) : GoError
  deriving DecidableEq

namespace GoError

/-- The method `Error()`: the message of an error. -/
def Error : GoError → String
  | eof => "EOF"
  | leaf msg => msg
  | wrapf pre inner => pre ++ inner.Error

/-- The function `errors.Unwrap`. -/
def Unwrap : GoError → Option GoError
  | wrapf _ inner => some inner
  | _ => none

end GoError

/-! ## `path.Ext` (Go standard library) -/

/-- The loop of `path.Ext`: `k` is `i + 1` for the loop variable `i`, which runs from
`len(path) - 1` down to `0` and stops at the first `/`. -/
def extLoop (path : List Char) : Nat → List Char
  | 0 => []
  | i + 1 =>
    if path.getD i '/' = '/' then []
    else if path.getD i '/' = '.' then path.drop i
    else extLoop path i

/-- The function `path.Ext`: the suffix beginning at the final dot in the final
slash-separated element of `path`, empty if there is no dot. -/
def pathExt (path : String) : String :=
  ⟨extLoop path.data path.data.length⟩

/-! ## Objects and requests of the storage bucket -/

/-- The fields of `gcs.Object` that the code reads. -/
structure Object where
  Name : String
  Generation : Int
  MetaGeneration : Int
  deriving DecidableEq

/-- The request `gcs.CreateObjectRequest`: the two fields the decorator touches, and all
the other fields together as `rest`. -/
structure CreateObjectRequest (ρ : Type) where
  Name : String
  CacheControl : String
  rest : ρ
  deriving DecidableEq

/-- The interface `gcs.Bucket`, restricted to the two methods the decorator overrides.
A bucket has a state `σ` of its own; a call returns the `(object, error)` pair and the
new state.  `κ` is the type of compose requests. -/
structure Bucket (σ ρ κ : Type) where
  CreateObject : CreateObjectRequest ρ → σ → (Option Object × Option GoError) × σ
  ComposeObjects : κ → σ → (Option Object × Option GoError) × σ

/-- The method `cacheBucket.CreateObject` (cache_bucket.go, lines 18-29). -/
def cacheBucket.CreateObject {σ ρ κ : Type} (b : Bucket σ ρ κ)
    (req : CreateObjectRequest ρ) (s : σ) : (Option Object × Option GoError) × σ :=
  let req := if pathExt req.Name = "m3u8" then { req with CacheControl := "no-cache" } else req
  -- Pass on the request.
  b.CreateObject req s

/-- The method `cacheBucket.ComposeObjects` (cache_bucket.go, lines 31-43). -/
def cacheBucket.ComposeObjects {σ ρ κ : Type} (b : Bucket σ ρ κ)
    (req : κ) (s : σ) : (Option Object × Option GoError) × σ :=
  -- Pass on the request.
  b.ComposeObjects req s

/-- A wrapped bucket that records every request it receives, in order, and answers with
fixed results. -/
def recordingBucket {ρ κ : Type} (created composed : Option Object × Option GoError) :
    Bucket (List (CreateObjectRequest ρ) × List κ) ρ κ where
  CreateObject := fun req s => (created, (s.1 ++ [req], s.2))
  ComposeObjects := fun req s => (composed, (s.1, s.2 ++ [req]))

/-! ## Generations and the explicit directory inode -/

/-- The struct `inode.Generation`: the content generation and the metadata generation of
a backing object. -/
structure Generation where
  Object : Int
  Metadata : Int
  deriving DecidableEq

/-- The struct `explicitDirInode`: the wrapped generic directory (a `*dirInode`, whose
state has type `δ`) and the generation captured at construction. -/
structure explicitDirInode (δ : Type) where
  dirInode : δ
  generation : Generation

/-- The constructor `NewExplicitDirInode` (explicit_dir.go, lines 35-64).  `NewDirInode`
lives outside the files at hand and is a parameter; `α` collects its arguments
(`id`, `name`, `attrs`, `implicitDirs`, `typeCacheTTL`, `bucket`, the two clocks), and the
type assertion `wrapped.(*dirInode)` is taken to succeed. -/
def NewExplicitDirInode {α δ : Type} (NewDirInode : α → δ) (args : α) (o : Object) :
    explicitDirInode δ :=
  let wrapped := NewDirInode args
  { dirInode := wrapped
    generation := { Object := o.Generation, Metadata := o.MetaGeneration } }

/-- The method `explicitDirInode.SourceGeneration` (explicit_dir.go, lines 71-74). -/
def explicitDirInode.SourceGeneration {δ : Type} (d : explicitDirInode δ) : Generation :=
  d.generation

/-- An operation performed on the wrapped directory: the methods of `*dirInode` reach the
embedded directory state only. -/
def explicitDirInode.onDir {δ : Type} (d : explicitDirInode δ) (op : δ → δ) :
    explicitDirInode δ :=
  { d with dirInode := op d.dirInode }

/-- A sequence of operations performed on the wrapped directory, in order. -/
def explicitDirInode.onDirAll {δ : Type} (d : explicitDirInode δ) (ops : List (δ → δ)) :
    explicitDirInode δ :=
  ops.foldl explicitDirInode.onDir d

/-! ## The file handle -/

/-- What `FileHandle` consumes of `inode.FileInode`: the state of its lock and the values
its accessors return.  `β` is the type of bucket handles. -/
structure FileInode (β : Type) where
  /-- Whether the inode's mutex is held. -/
  locked : Bool
  SourceGenerationIsAuthoritative : Bool
  SourceGeneration : Generation
  Source : Object
  Bucket : β

/-- The calls a `Read` makes on its collaborators, in the order it makes them.  `ρ` is the
type of readers, `β` of bucket handles, `γ` of contexts, `δ` of destination buffers. -/
inductive Event (ρ β γ δ : Type) where
  | inodeLock : Event ρ β γ δ
  | inodeUnlock : Event ρ β γ δ
  | readerDestroy (r : ρ) : Event ρ β γ δ
  | NewRandomReader (o : Object) (bucket : β) : Event ρ β γ δ
  | readerReadAt (r : ρ) (ctx : γ) (dst : δ) (offset : Int) : Event ρ β γ δ
  | inodeRead (ctx : γ) (dst : δ) (offset : Int) : Event ρ β γ δ
  deriving DecidableEq

/-- The state a `Read` works on: the handle's `reader` field (`none` for `nil`), its
inode, and the calls made so far, oldest first. -/
structure State (ρ β γ δ : Type) where
  reader : Option ρ
  inode : FileInode β
  trace : List (Event ρ β γ δ)

/-- The collaborators of the handle, which are black boxes to it: `gcsx.NewRandomReader`,
the reader's `Object()` and `ReadAt`, and the inode's own `Read`.  What a call returns may
depend on everything that happened before it, so each takes the trace so far.  A byte read
returns its count and error. -/
structure Env (ρ β γ δ : Type) where
  NewRandomReader : List (Event ρ β γ δ) → Object → β → Except GoError ρ
  Object : ρ → Object
  ReadAt : List (Event ρ β γ δ) → ρ → γ → δ → Int → Int × Option GoError
  inodeRead : List (Event ρ β γ δ) → FileInode β → γ → δ → Int → Int × Option GoError

section handle

variable {ρ β γ δ : Type}

/-- Append a call to the trace. -/
def State.emit (s : State ρ β γ δ) (e : Event ρ β γ δ) : State ρ β γ δ :=
  { s with trace := s.trace ++ [e] }

/-- The call `fh.inode.Lock()`. -/
def State.inodeLock (s : State ρ β γ δ) : State ρ β γ δ :=
  { s with inode := { s.inode with locked := true }, trace := s.trace ++ [Event.inodeLock] }

/-- The call `fh.inode.Unlock()`. -/
def State.inodeUnlock (s : State ρ β γ δ) : State ρ β γ δ :=
  { s with inode := { s.inode with locked := false }, trace := s.trace ++ [Event.inodeUnlock] }

/-- The two statements `fh.reader.Destroy(); fh.reader = nil`. -/
def State.destroyReader (s : State ρ β γ δ) (r : ρ) : State ρ β γ δ :=
  { s with reader := none, trace := s.trace ++ [Event.readerDestroy r] }

/-- The tail of `tryEnsureReader` (file.go, lines 159-167): attempt to create an
appropriate reader. -/
def createReader (env : Env ρ β γ δ) (s : State ρ β γ δ) : State ρ β γ δ × Option GoError :=
  let s1 := s.emit (Event.NewRandomReader s.inode.Source s.inode.Bucket)
  match env.NewRandomReader s.trace s.inode.Source s.inode.Bucket with
  | Except.error err => (s1, some (GoError.wrapf "NewRandomReader: " err))
  | Except.ok rr => ({ s1 with reader := some rr }, none)

/-- The method `FileHandle.tryEnsureReader` (file.go, lines 136-168). -/
def tryEnsureReader (env : Env ρ β γ δ) (s : State ρ β γ δ) : State ρ β γ δ × Option GoError :=
  -- If the inode is dirty, there's nothing we can do.
  if !s.inode.SourceGenerationIsAuthoritative then
    match s.reader with
    | some r => (s.destroyReader r, none)
    | none => (s, none)
  else
    -- If we already have a reader at the appropriate generation, use it.
    match s.reader with
    | some r =>
      if (env.Object r).Generation = s.inode.SourceGeneration.Object then (s, none)
      else createReader env (s.destroyReader r)
    | none => createReader env s

/-- The method `FileHandle.Read` (file.go, lines 77-117).  The result is the new state and
the pair `(n, err)`. -/
def Read (env : Env ρ β γ δ) (s : State ρ β γ δ) (ctx : γ) (dst : δ) (offset : Int) :
    State ρ β γ δ × (Int × Option GoError) :=
  let s1 := s.inodeLock
  match tryEnsureReader env s1 with
  | (s2, some err) =>
    (s2.inodeUnlock, (0, some (GoError.wrapf "tryEnsureReader: " err)))
  | (s2, none) =>
    match s2.reader with
    | some r =>
      -- If we have an appropriate reader, unlock the inode and use that.
      let s3 := s2.inodeUnlock
      let res := env.ReadAt s3.trace r ctx dst offset
      let s4 := s3.emit (Event.readerReadAt r ctx dst offset)
      match res with
      | (n, some GoError.eof) => (s4, (n, some GoError.eof))
      | (n, some err) => (s4, (n, some (GoError.wrapf "fh.reader.ReadAt: " err)))
      | (n, none) => (s4, (n, none))
    | none =>
      -- Otherwise we must fall through to the inode.
      let res := env.inodeRead s2.trace s2.inode ctx dst offset
      let s3 := s2.emit (Event.inodeRead ctx dst offset)
      (s3.inodeUnlock, res)

/-- Consecutive calls of `Read` on one handle, the inode left as it is in between; the
results are listed in order. -/
def ReadAll (env : Env ρ β γ δ) :
    State ρ β γ δ → List (γ × δ × Int) → State ρ β γ δ × List (Int × Option GoError)
  | s, [] => (s, [])
  | s, (ctx, dst, offset) :: reqs =>
    let r := Read env s ctx dst offset
    let rest := ReadAll env r.1 reqs
    (rest.1, r.2 :: rest.2)

/-- Whether the inode lock is held after the calls `tr`, given whether it was before. -/
def lockHeld (init : Bool) (tr : List (Event ρ β γ δ)) : Bool :=
  tr.foldl (fun held e =>
    match e with
    | Event.inodeLock => true
    | Event.inodeUnlock => false
    | _ => held) init

/-- Whether a call is a construction of a reader. -/
def Event.isConstruct : Event ρ β γ δ → Bool
  | Event.NewRandomReader _ _ => true
  | _ => false

/-- Whether a call destroys a reader. -/
def Event.isDestroy : Event ρ β γ δ → Bool
  | Event.readerDestroy _ => true
  | _ => false

/-- Whether a call is a byte read through a reader. -/
def Event.isReadAt : Event ρ β γ δ → Bool
  | Event.readerReadAt _ _ _ _ => true
  | _ => false

/-- Whether a call is the inode's own byte read. -/
def Event.isInodeRead : Event ρ β γ δ → Bool
  | Event.inodeRead _ _ _ => true
  | _ => false

/-- The generation a reader is bound to: that of the object it reads. -/
def boundGeneration (env : Env ρ β γ δ) (r : ρ) : Generation :=
  { Object := (env.Object r).Generation, Metadata := (env.Object r).MetaGeneration }

/-- The calls made between the state `s` and the later state `t`. -/
def callsSince (s t : State ρ β γ δ) : List (Event ρ β γ δ) :=
  t.trace.drop s.trace.length

/-- Whether a call acquires the inode lock. -/
def Event.isLock : Event ρ β γ δ → Bool
  | Event.inodeLock => true
  | _ => false

/-- Whether a call releases the inode lock. -/
def Event.isUnlock : Event ρ β γ δ → Bool
  | Event.inodeUnlock => true
  | _ => false

end handle

/-! ## A concrete environment

Readers are numbered: reader `k` reads an object of content generation `k` and metadata
generation `1`.  A bucket handle is `true` when the bucket can be reached; building a
reader on an unreachable bucket fails.  A byte read fails at a negative offset; a reader
reports the end of the data from offset `100` on. -/

/-- The collaborators of the concrete environment. -/
def demoEnv : Env Nat Bool Unit Unit where
  NewRandomReader := fun _ o bucket =>
    if bucket then Except.ok o.Generation.toNat
    else Except.error (GoError.leaf "bucket unreachable")
  Object := fun r => { Name := "file", Generation := r, MetaGeneration := 1 }
  ReadAt := fun _ _ _ _ offset =>
    if offset < 0 then (0, some (GoError.leaf "negative offset"))
    else if 100 ≤ offset then (0, some GoError.eof)
    else (10, none)
  inodeRead := fun _ _ _ _ offset =>
    if offset < 0 then (0, some (GoError.leaf "negative offset")) else (7, none)

/-- A handle of the concrete environment: its reader, whether its inode is clean, the
inode's content and metadata generation, and whether the bucket can be reached. -/
def demoHandle (reader : Option Nat) (clean : Bool) (gen metagen : Int) (bucketUp : Bool) :
    State Nat Bool Unit Unit where
  reader := reader
  inode :=
    { locked := false
      SourceGenerationIsAuthoritative := clean
      SourceGeneration := { Object := gen, Metadata := metagen }
      Source := { Name := "file", Generation := gen, MetaGeneration := metagen }
      Bucket := bucketUp }
  trace := []

/-! ## Lemmas: `path.Ext` -/

/-- The loop of `path.Ext` returns the empty string or a string that begins with a dot. -/
theorem extLoop_nil_or_dot (path : List Char) (k : Nat) :
    extLoop path k = [] ∨ ∃ t, extLoop path k = '.' :: t := by
  induction k with
  | zero => exact Or.inl rfl
  | succ i ih =>
    unfold extLoop
    split
    · exact Or.inl rfl
    · split
      · rename_i hslash hdot
        have hi : i < path.length := by
          by_contra hlt
          rw [List.getD_eq_default _ _ (not_lt.mp hlt)] at hslash
          exact hslash rfl
        refine Or.inr ⟨path.drop (i + 1), ?_⟩
        rw [List.getD_eq_getElem _ _ hi] at hdot
        rw [List.drop_eq_getElem_cons hi, hdot]
      · exact ih

/-- The extension `path.Ext` returns is never the four characters `m3u8`: it is empty or
begins with a dot. -/
theorem pathExt_ne_m3u8 (path : String) : pathExt path ≠ "m3u8" := by
  intro h
  have hd : extLoop path.data path.data.length = ['m', '3', 'u', '8'] := by
    have := congrArg String.data h
    simpa [pathExt] using this
  rcases extLoop_nil_or_dot path.data path.data.length with h0 | ⟨t, ht⟩
  · rw [h0] at hd
    exact absurd hd (by decide)
  · rw [ht] at hd
    have hc : '.' = 'm' := (List.cons.inj hd).1
    exact absurd hc (by decide)

/-! ## The cache-control decorator -/

/-- Claim C1, evaluated on the code: creating `playlist.m3u8` with the cache-control
directive `public`.  The wrapped bucket receives the request with `CacheControl` still
`public`, not `no-cache`: `path.Ext` yields `.m3u8`, dot included, and the code compares
it with `m3u8`. -/
theorem createObject_playlist_m3u8_not_rewritten :
    pathExt "playlist.m3u8" = ".m3u8" ∧
    (cacheBucket.CreateObject (@recordingBucket Unit Unit (none, none) (none, none))
        { Name := "playlist.m3u8", CacheControl := "public", rest := () } ([], [])).2.1
      = [{ Name := "playlist.m3u8", CacheControl := "public", rest := () }] ∧
    (cacheBucket.CreateObject (@recordingBucket Unit Unit (none, none) (none, none))
        { Name := "playlist.m3u8", CacheControl := "public", rest := () } ([], [])).2.1.map
          (fun r => r.CacheControl) ≠ ["no-cache"] := by
  refine ⟨by decide, ?_, ?_⟩
  · simp [cacheBucket.CreateObject, pathExt_ne_m3u8, recordingBucket]
  · simp [cacheBucket.CreateObject, pathExt_ne_m3u8, recordingBucket]

/-- Claim C9: the decorator passes through.  For every wrapped bucket, every create request
(so in particular every one whose name has another extension than the manifest one, such
as `video.mp4`) and every compose request, the wrapped bucket is called with the request
unchanged, every field included, and the `(object, error)` pair returned is the one the
wrapped bucket returned.  The last two parts show it on a bucket that records what it
receives. -/
theorem cacheBucket_passes_through {σ ρ κ : Type} (b : Bucket σ ρ κ) :
    (∀ (req : CreateObjectRequest ρ) (s : σ),
        cacheBucket.CreateObject b req s = b.CreateObject req s) ∧
    (∀ (req : κ) (s : σ), cacheBucket.ComposeObjects b req s = b.ComposeObjects req s) ∧
    (∀ (created composed : Option Object × Option GoError) (req : CreateObjectRequest ρ)
        (seen : List (CreateObjectRequest ρ)) (seen2 : List κ),
        cacheBucket.CreateObject (recordingBucket created composed) req (seen, seen2)
          = (created, (seen ++ [req], seen2))) ∧
    (∀ (created composed : Option Object × Option GoError) (req : κ)
        (seen : List (CreateObjectRequest ρ)) (seen2 : List κ),
        cacheBucket.ComposeObjects (recordingBucket created composed) req (seen, seen2)
          = (composed, (seen, seen2 ++ [req]))) := by
  refine ⟨?_, ?_, ?_, ?_⟩
  · intro req s
    simp [cacheBucket.CreateObject, pathExt_ne_m3u8]
  · intro req s
    rfl
  · intro created composed req seen seen2
    simp [cacheBucket.CreateObject, pathExt_ne_m3u8, recordingBucket]
  · intro created composed req seen seen2
    rfl

/-! ## The explicit directory inode -/

/-- Claim C10: the explicit directory inode built by `NewExplicitDirInode` from the backing
object `o` reports the generation `{Object: o.Generation, Metadata: o.MetaGeneration}`,
and keeps reporting it after any sequence of operations on the wrapped directory. -/
theorem explicitDir_sourceGeneration {α δ : Type} (NewDirInode : α → δ) (args : α)
    (o : Object) (ops : List (δ → δ)) :
    (NewExplicitDirInode NewDirInode args o).SourceGeneration
        = { Object := o.Generation, Metadata := o.MetaGeneration } ∧
    ((NewExplicitDirInode NewDirInode args o).onDirAll ops).SourceGeneration
        = (NewExplicitDirInode NewDirInode args o).SourceGeneration := by
  refine ⟨rfl, ?_⟩
  generalize NewExplicitDirInode NewDirInode args o = d
  induction ops generalizing d with
  | nil => rfl
  | cons op ops ih =>
    have h := ih (d.onDir op)
    simpa [explicitDirInode.onDirAll, explicitDirInode.onDir,
      explicitDirInode.SourceGeneration] using h

/-! ## Lemmas: the file handle -/

section handleTheorems

variable {ρ β γ δ : Type}

/-- An error wrapped by `fmt.Errorf` is not the error it wraps. -/
theorem wrapf_ne_self (pre : String) (e : GoError) : GoError.wrapf pre e ≠ e := by
  intro h
  have := congrArg sizeOf h
  simp at this

/-- The state after a `Read` that found a reader: the lock is released, then `ReadAt` is
called. -/
theorem Read_state_of_reader (env : Env ρ β γ δ) (s s2 : State ρ β γ δ) (ctx : γ) (dst : δ)
    (offset : Int) (r : ρ)
    (hens : tryEnsureReader env s.inodeLock = (s2, none)) (hr : s2.reader = some r) :
    (Read env s ctx dst offset).1
      = s2.inodeUnlock.emit (Event.readerReadAt r ctx dst offset) := by
  simp only [Read, hens, hr]
  split <;> rfl

/-- A `Read` that found no reader: the inode reads, then the lock is released, and the
result of the inode is returned as it is. -/
theorem Read_of_none (env : Env ρ β γ δ) (s s2 : State ρ β γ δ) (ctx : γ) (dst : δ)
    (offset : Int)
    (hens : tryEnsureReader env s.inodeLock = (s2, none)) (hr : s2.reader = none) :
    Read env s ctx dst offset
      = ((s2.emit (Event.inodeRead ctx dst offset)).inodeUnlock,
          env.inodeRead s2.trace s2.inode ctx dst offset) := by
  simp only [Read, hens, hr]

/-- A `Read` whose `tryEnsureReader` failed: the lock is released and the error is wrapped. -/
theorem Read_of_error (env : Env ρ β γ δ) (s s2 : State ρ β γ δ) (ctx : γ) (dst : δ)
    (offset : Int) (err : GoError)
    (hens : tryEnsureReader env s.inodeLock = (s2, some err)) :
    Read env s ctx dst offset
      = (s2.inodeUnlock, (0, some (GoError.wrapf "tryEnsureReader: " err))) := by
  simp only [Read, hens]

/-- The state after a `Read` by a handle whose reader is at the content generation of its
clean inode: the reader is kept and read from. -/
theorem Read_fresh (env : Env ρ β γ δ) (s : State ρ β γ δ) (r : ρ) (ctx : γ) (dst : δ)
    (offset : Int)
    (hclean : s.inode.SourceGenerationIsAuthoritative = true)
    (hr : s.reader = some r)
    (hgen : (env.Object r).Generation = s.inode.SourceGeneration.Object) :
    (Read env s ctx dst offset).1
      = { reader := some r
          inode := { s.inode with locked := false }
          trace := s.trace ++ [Event.inodeLock, Event.inodeUnlock,
            Event.readerReadAt r ctx dst offset] } := by
  have hens : tryEnsureReader env s.inodeLock = (s.inodeLock, none) := by
    simp [tryEnsureReader, State.inodeLock, hclean, hr, hgen]
  rw [Read_state_of_reader env s s.inodeLock ctx dst offset r hens (by simpa [State.inodeLock] using hr)]
  simp [State.inodeLock, State.inodeUnlock, State.emit, hr]

/-- Consecutive reads by a handle whose reader is at the content generation of its clean
inode keep that reader, and neither destroy nor construct a reader. -/
theorem ReadAll_fresh (env : Env ρ β γ δ) (r : ρ) (reqs : List (γ × δ × Int)) :
    ∀ s : State ρ β γ δ, s.inode.SourceGenerationIsAuthoritative = true →
      s.reader = some r →
      (env.Object r).Generation = s.inode.SourceGeneration.Object →
      (ReadAll env s reqs).1.reader = some r ∧
      ∃ evs, (ReadAll env s reqs).1.trace = s.trace ++ evs ∧
        evs.countP Event.isConstruct = 0 ∧ evs.countP Event.isDestroy = 0 := by
  induction reqs with
  | nil =>
    intro s _ hr _
    exact ⟨hr, [], by simp [ReadAll], rfl, rfl⟩
  | cons req reqs ih =>
    intro s hclean hr hgen
    obtain ⟨ctx, dst, offset⟩ := req
    have hstep := Read_fresh env s r ctx dst offset hclean hr hgen
    have h := ih (Read env s ctx dst offset).1 (by rw [hstep]; exact hclean)
      (by rw [hstep]) (by rw [hstep]; exact hgen)
    obtain ⟨hreader, evs, htrace, hc, hd⟩ := h
    refine ⟨by simpa [ReadAll] using hreader, ?_⟩
    refine ⟨[Event.inodeLock, Event.inodeUnlock, Event.readerReadAt r ctx dst offset] ++ evs,
      ?_, ?_, ?_⟩
    · simp only [ReadAll]
      rw [htrace, hstep]
      simp
    · simpa [List.countP_cons, Event.isConstruct] using hc
    · simpa [List.countP_cons, Event.isDestroy] using hd

/-- The state after a `Read` on a clean inode that has to build a reader and succeeds. -/
theorem Read_rebuild (env : Env ρ β γ δ) (s : State ρ β γ δ) (ctx : γ) (dst : δ)
    (offset : Int) (rr : ρ)
    (hclean : s.inode.SourceGenerationIsAuthoritative = true)
    (hneed : ∀ r, s.reader = some r →
      (env.Object r).Generation ≠ s.inode.SourceGeneration.Object)
    (hok : env.NewRandomReader
        (s.trace ++ Event.inodeLock :: s.reader.toList.map Event.readerDestroy)
        s.inode.Source s.inode.Bucket = Except.ok rr) :
    (Read env s ctx dst offset).1
      = { reader := some rr
          inode := { s.inode with locked := false }
          trace := s.trace ++ Event.inodeLock :: (s.reader.toList.map Event.readerDestroy
              ++ [Event.NewRandomReader s.inode.Source s.inode.Bucket, Event.inodeUnlock,
                Event.readerReadAt rr ctx dst offset]) } := by
  cases hr : s.reader with
  | none =>
    rw [hr] at hok
    have hens : tryEnsureReader env s.inodeLock
        = ({ (s.inodeLock).emit (Event.NewRandomReader s.inode.Source s.inode.Bucket) with
              reader := some rr }, none) := by
      simp at hok
      simp [tryEnsureReader, createReader, State.inodeLock, State.emit, hclean, hr, hok]
    rw [Read_state_of_reader env s _ ctx dst offset rr hens rfl]
    simp [State.inodeLock, State.inodeUnlock, State.emit]
  | some r =>
    rw [hr] at hok
    have hstale := hneed r hr
    have hens : tryEnsureReader env s.inodeLock
        = ({ ((s.inodeLock).destroyReader r).emit
                (Event.NewRandomReader s.inode.Source s.inode.Bucket) with
              reader := some rr }, none) := by
      simp at hok
      simp [tryEnsureReader, createReader, State.inodeLock, State.emit, State.destroyReader,
        hclean, hr, hok, hstale]
    rw [Read_state_of_reader env s _ ctx dst offset rr hens rfl]
    simp [State.inodeLock, State.inodeUnlock, State.emit, State.destroyReader]

/-- Consecutive reads of a clean inode that stays as it is construct at most one reader,
whatever reader the handle starts with, as long as `NewRandomReader` succeeds and the
reader it returns for the source of the inode reports the content generation of the inode. -/
theorem ReadAll_constructs_at_most_once (env : Env ρ β γ δ) (s : State ρ β γ δ)
    (reqs : List (γ × δ × Int))
    (hclean : s.inode.SourceGenerationIsAuthoritative = true)
    (hok : ∀ tr, ∃ rr, env.NewRandomReader tr s.inode.Source s.inode.Bucket = Except.ok rr)
    (hbound : ∀ tr rr, env.NewRandomReader tr s.inode.Source s.inode.Bucket = Except.ok rr →
      (env.Object rr).Generation = s.inode.SourceGeneration.Object) :
    (callsSince s (ReadAll env s reqs).1).countP Event.isConstruct ≤ 1 := by
  by_cases hfresh : ∃ r, s.reader = some r ∧
      (env.Object r).Generation = s.inode.SourceGeneration.Object
  · obtain ⟨r, hr, hgen⟩ := hfresh
    obtain ⟨_, evs, htrace, hc, _⟩ := ReadAll_fresh env r reqs s hclean hr hgen
    simp [callsSince, htrace, hc]
  · have hneed : ∀ r, s.reader = some r →
        (env.Object r).Generation ≠ s.inode.SourceGeneration.Object :=
      fun r hr hgen => hfresh ⟨r, hr, hgen⟩
    cases reqs with
    | nil => simp [ReadAll, callsSince]
    | cons req reqs =>
      obtain ⟨ctx, dst, offset⟩ := req
      obtain ⟨rr, hrr⟩ := hok (s.trace ++ Event.inodeLock
        :: s.reader.toList.map Event.readerDestroy)
      have hstep := Read_rebuild env s ctx dst offset rr hclean hneed hrr
      obtain ⟨_, evs, htrace, hc, _⟩ := ReadAll_fresh env rr reqs
        (Read env s ctx dst offset).1 (by rw [hstep]; exact hclean) (by rw [hstep])
        (by rw [hstep]; exact hbound _ rr hrr)
      simp only [ReadAll, callsSince]
      rw [htrace, hstep]
      cases s.reader <;>
        simp [List.countP_cons, List.countP_append, Event.isConstruct, hc]

/-- A `Read` on a clean inode by a handle without a reader calls `NewRandomReader` right
after taking the lock. -/
theorem Read_absent_clean (env : Env ρ β γ δ) (s : State ρ β γ δ) (ctx : γ) (dst : δ)
    (offset : Int) (hclean : s.inode.SourceGenerationIsAuthoritative = true)
    (hr : s.reader = none) :
    ∃ rest, (Read env s ctx dst offset).1.trace
      = s.trace ++ (Event.inodeLock
          :: Event.NewRandomReader s.inode.Source s.inode.Bucket :: rest) := by
  cases hn : env.NewRandomReader (s.trace ++ [Event.inodeLock]) s.inode.Source s.inode.Bucket with
  | error e =>
    have hens : tryEnsureReader env s.inodeLock
        = ((s.inodeLock).emit (Event.NewRandomReader s.inode.Source s.inode.Bucket),
            some (GoError.wrapf "NewRandomReader: " e)) := by
      simp [tryEnsureReader, createReader, State.inodeLock, State.emit, hclean, hr, hn]
    refine ⟨[Event.inodeUnlock], ?_⟩
    rw [Read_of_error env s _ ctx dst offset _ hens]
    simp [State.inodeLock, State.inodeUnlock, State.emit]
  | ok rr =>
    have hens : tryEnsureReader env s.inodeLock
        = ({ (s.inodeLock).emit (Event.NewRandomReader s.inode.Source s.inode.Bucket) with
              reader := some rr }, none) := by
      simp [tryEnsureReader, createReader, State.inodeLock, State.emit, hclean, hr, hn]
    refine ⟨[Event.inodeUnlock, Event.readerReadAt rr ctx dst offset], ?_⟩
    rw [Read_state_of_reader env s _ ctx dst offset rr hens rfl]
    simp [State.inodeLock, State.inodeUnlock, State.emit]

/-- The calls `tryEnsureReader` makes: at most one `Destroy`, then at most one
`NewRandomReader`; it leaves the inode as it is. -/
theorem tryEnsureReader_calls (env : Env ρ β γ δ) (s : State ρ β γ δ) :
    ∃ mid, (tryEnsureReader env s).1.trace = s.trace ++ mid ∧
      (tryEnsureReader env s).1.inode = s.inode ∧
      (mid = [] ∨ (∃ r, mid = [Event.readerDestroy r]) ∨
        mid = [Event.NewRandomReader s.inode.Source s.inode.Bucket] ∨
        ∃ r, mid = [Event.readerDestroy r,
          Event.NewRandomReader s.inode.Source s.inode.Bucket]) := by
  unfold tryEnsureReader
  split
  · split
    · rename_i r _
      exact ⟨[Event.readerDestroy r], rfl, rfl, Or.inr (Or.inl ⟨r, rfl⟩)⟩
    · exact ⟨[], by simp, rfl, Or.inl rfl⟩
  · split
    · rename_i r _
      split
      · exact ⟨[], by simp, rfl, Or.inl rfl⟩
      · refine ⟨[Event.readerDestroy r, Event.NewRandomReader s.inode.Source s.inode.Bucket],
          ?_, ?_, Or.inr (Or.inr (Or.inr ⟨r, rfl⟩))⟩
        · unfold createReader
          split <;> simp [State.destroyReader, State.emit]
        · unfold createReader
          split <;> simp [State.destroyReader, State.emit]
    · refine ⟨[Event.NewRandomReader s.inode.Source s.inode.Bucket], ?_, ?_,
        Or.inr (Or.inr (Or.inl rfl))⟩
      · unfold createReader
        split <;> simp [State.emit]
      · unfold createReader
        split <;> simp [State.emit]

/-- The calls one `Read` makes: `Lock`, what `tryEnsureReader` does, and then one of three
endings. -/
theorem Read_calls (env : Env ρ β γ δ) (s : State ρ β γ δ) (ctx : γ) (dst : δ)
    (offset : Int) :
    ∃ mid tail,
      (Read env s ctx dst offset).1.trace = s.trace ++ (Event.inodeLock :: mid ++ tail) ∧
      (Read env s ctx dst offset).1.inode.locked = false ∧
      (mid = [] ∨ (∃ r, mid = [Event.readerDestroy r]) ∨
        mid = [Event.NewRandomReader s.inode.Source s.inode.Bucket] ∨
        ∃ r, mid = [Event.readerDestroy r,
          Event.NewRandomReader s.inode.Source s.inode.Bucket]) ∧
      (tail = [Event.inodeUnlock] ∨
        (∃ r, tail = [Event.inodeUnlock, Event.readerReadAt r ctx dst offset]) ∨
        tail = [Event.inodeRead ctx dst offset, Event.inodeUnlock]) := by
  obtain ⟨mid, htrace, hinode, hmid⟩ := tryEnsureReader_calls env s.inodeLock
  have hmid2 : mid = [] ∨ (∃ r, mid = [Event.readerDestroy r]) ∨
        mid = [Event.NewRandomReader s.inode.Source s.inode.Bucket] ∨
        ∃ r, mid = [Event.readerDestroy r,
          Event.NewRandomReader s.inode.Source s.inode.Bucket] := hmid
  rcases hout : tryEnsureReader env s.inodeLock with ⟨s2, err⟩
  rw [hout] at htrace hinode
  simp only at htrace hinode
  cases err with
  | some e =>
    refine ⟨mid, [Event.inodeUnlock], ?_, ?_, hmid2, Or.inl rfl⟩
    · rw [Read_of_error env s s2 ctx dst offset e hout]
      simp [State.inodeUnlock, htrace, State.inodeLock]
    · rw [Read_of_error env s s2 ctx dst offset e hout]
      rfl
  | none =>
    cases hr : s2.reader with
    | some r =>
      refine ⟨mid, [Event.inodeUnlock, Event.readerReadAt r ctx dst offset], ?_, ?_, hmid2,
        Or.inr (Or.inl ⟨r, rfl⟩)⟩
      · rw [Read_state_of_reader env s s2 ctx dst offset r hout hr]
        simp [State.inodeUnlock, State.emit, htrace, State.inodeLock]
      · rw [Read_state_of_reader env s s2 ctx dst offset r hout hr]
        rfl
    | none =>
      refine ⟨mid, [Event.inodeRead ctx dst offset, Event.inodeUnlock], ?_, ?_, hmid2,
        Or.inr (Or.inr rfl)⟩
      · rw [Read_of_none env s s2 ctx dst offset hout hr]
        simp [State.inodeUnlock, State.emit, htrace, State.inodeLock]
      · rw [Read_of_none env s s2 ctx dst offset hout hr]
        rfl

/-- Where a marked element sits in a list is determined, when no other element is marked. -/
theorem append_cons_unique {α : Type} (P : α → Bool) (x e : α) :
    ∀ (l1 l2 pre post : List α), l1 ++ x :: l2 = pre ++ e :: post →
      (∀ a ∈ l1, P a = false) → (∀ a ∈ l2, P a = false) → P e = true →
      pre = l1 ∧ e = x ∧ post = l2 := by
  intro l1
  induction l1 with
  | nil =>
    intro l2 pre post h _ h2 he
    cases pre with
    | nil =>
      simp only [List.nil_append, List.cons.injEq] at h
      exact ⟨rfl, h.1.symm, h.2.symm⟩
    | cons b pre =>
      simp only [List.nil_append, List.cons_append, List.cons.injEq] at h
      have hmem : e ∈ l2 := by rw [h.2]; simp
      rw [h2 e hmem] at he
      exact absurd he (by decide)
  | cons a l1 ih =>
    intro l2 pre post h h1 h2 he
    cases pre with
    | nil =>
      simp only [List.nil_append, List.cons_append, List.cons.injEq] at h
      have ha := h1 a (by simp)
      rw [h.1, he] at ha
      exact absurd ha (by decide)
    | cons b pre =>
      simp only [List.cons_append, List.cons.injEq] at h
      obtain ⟨hpre, hx, hpost⟩ := ih l2 pre post h.2
        (fun c hc => h1 c (List.mem_cons_of_mem _ hc)) h2 he
      exact ⟨by rw [h.1, hpre], hx, hpost⟩

/-- The state of the lock after two runs of calls, one after the other. -/
theorem lockHeld_append (h : Bool) (l1 l2 : List (Event ρ β γ δ)) :
    lockHeld h (l1 ++ l2) = lockHeld (lockHeld h l1) l2 := by
  simp [lockHeld, List.foldl_append]

/-- Calls that neither take nor release the lock leave it as it is. -/
theorem lockHeld_neutral (l : List (Event ρ β γ δ))
    (hl : ∀ a ∈ l, a.isLock = false ∧ a.isUnlock = false) :
    ∀ h : Bool, lockHeld h l = h := by
  induction l with
  | nil => intro h; rfl
  | cons a l ih =>
    intro h
    have ha := hl a (by simp)
    have hrest := ih (fun c hc => hl c (List.mem_cons_of_mem _ hc))
    cases a <;> first
      | exact hrest h
      | simp [Event.isLock, Event.isUnlock] at ha

/-! ## The file handle: acquiring a reader -/

/-- Claim C2, amended: on a clean inode, a handle whose reader reads another content
generation (`Object().Generation`) than the one the inode reports
(`SourceGeneration().Object`) has that reader destroyed exactly once, and
`NewRandomReader` is called exactly once, after the destruction, with the `Source()` and
`Bucket()` of the inode; when that call succeeds its reader becomes the reader of the
handle and no error is returned. -/
theorem tryEnsureReader_stale (env : Env ρ β γ δ) (s : State ρ β γ δ) (r : ρ)
    (hclean : s.inode.SourceGenerationIsAuthoritative = true)
    (hr : s.reader = some r)
    (hstale : (env.Object r).Generation ≠ s.inode.SourceGeneration.Object) :
    (tryEnsureReader env s).1.trace
      = s.trace ++ [Event.readerDestroy r, Event.NewRandomReader s.inode.Source s.inode.Bucket] ∧
    (callsSince s (tryEnsureReader env s).1).countP Event.isDestroy = 1 ∧
    (callsSince s (tryEnsureReader env s).1).countP Event.isConstruct = 1 ∧
    (∀ rr, env.NewRandomReader (s.trace ++ [Event.readerDestroy r]) s.inode.Source
          s.inode.Bucket = Except.ok rr →
        (tryEnsureReader env s).1.reader = some rr ∧ (tryEnsureReader env s).2 = none) := by
  cases hn : env.NewRandomReader (s.trace ++ [Event.readerDestroy r]) s.inode.Source
      s.inode.Bucket <;>
    simp [tryEnsureReader, createReader, hclean, hr, hstale, hn, State.destroyReader,
      State.emit, callsSince, List.countP_cons, Event.isConstruct, Event.isDestroy]

/-- Claim C2, amended, at a reader of content generation 3 on a clean inode at content
generation 4: the reader is destroyed, one reader is built, and it becomes the reader of
the handle. -/
theorem tryEnsureReader_stale_witness :
    (demoHandle (some 3) true 4 1 true).inode.SourceGenerationIsAuthoritative = true ∧
    (demoHandle (some 3) true 4 1 true).reader = some 3 ∧
    (demoEnv.Object 3).Generation
      ≠ (demoHandle (some 3) true 4 1 true).inode.SourceGeneration.Object ∧
    (tryEnsureReader demoEnv (demoHandle (some 3) true 4 1 true)).1.trace
      = [Event.readerDestroy 3,
          Event.NewRandomReader { Name := "file", Generation := 4, MetaGeneration := 1 } true] ∧
    (tryEnsureReader demoEnv (demoHandle (some 3) true 4 1 true)).1.reader = some 4 :=
  ⟨rfl, rfl, by decide,
    (tryEnsureReader_stale demoEnv (demoHandle (some 3) true 4 1 true) 3 rfl rfl
      (by decide)).1,
    ((tryEnsureReader_stale demoEnv (demoHandle (some 3) true 4 1 true) 3 rfl rfl
      (by decide)).2.2.2 4 rfl).1⟩

/-- Claim C2 as stated fails: a reader bound to the generation (content 5, metadata 1),
on a clean inode whose generation is (content 5, metadata 2).  The two generations differ,
yet `tryEnsureReader` destroys nothing, constructs nothing and keeps the reader. -/
theorem tryEnsureReader_keeps_reader_when_metadata_differs :
    (demoHandle (some 5) true 5 2 true).inode.SourceGenerationIsAuthoritative = true ∧
    (demoHandle (some 5) true 5 2 true).reader = some 5 ∧
    boundGeneration demoEnv 5 = { Object := 5, Metadata := 1 } ∧
    (demoHandle (some 5) true 5 2 true).inode.SourceGeneration
      = { Object := 5, Metadata := 2 } ∧
    boundGeneration demoEnv 5 ≠ (demoHandle (some 5) true 5 2 true).inode.SourceGeneration ∧
    (callsSince (demoHandle (some 5) true 5 2 true)
      (tryEnsureReader demoEnv (demoHandle (some 5) true 5 2 true)).1).countP
        Event.isDestroy = 0 ∧
    (callsSince (demoHandle (some 5) true 5 2 true)
      (tryEnsureReader demoEnv (demoHandle (some 5) true 5 2 true)).1).countP
        Event.isConstruct = 0 ∧
    (tryEnsureReader demoEnv (demoHandle (some 5) true 5 2 true)).1.reader = some 5 ∧
    (tryEnsureReader demoEnv (demoHandle (some 5) true 5 2 true)).2 = none := by
  refine ⟨rfl, rfl, rfl, rfl, by decide, by decide, by decide, rfl, rfl⟩

/-- Claim C3: on a dirty inode, `Read` makes exactly these calls: it takes the lock,
destroys the reader of the handle if there is one, calls the own `Read` of the inode once
with the same `ctx`, `dst` and `offset`, and releases the lock.  So it constructs no
reader and calls `ReadAt` on none; it leaves the handle without a reader; and it returns
what the inode returned, byte count included. -/
theorem Read_dirty (env : Env ρ β γ δ) (s : State ρ β γ δ) (ctx : γ) (dst : δ) (offset : Int)
    (hdirty : s.inode.SourceGenerationIsAuthoritative = false) :
    (Read env s ctx dst offset).1.trace
      = s.trace ++ Event.inodeLock :: (s.reader.toList.map Event.readerDestroy
          ++ [Event.inodeRead ctx dst offset, Event.inodeUnlock]) ∧
    (Read env s ctx dst offset).1.reader = none ∧
    (Read env s ctx dst offset).2
      = env.inodeRead (s.trace ++ Event.inodeLock :: s.reader.toList.map Event.readerDestroy)
          { s.inode with locked := true } ctx dst offset ∧
    (callsSince s (Read env s ctx dst offset).1).countP Event.isConstruct = 0 ∧
    (callsSince s (Read env s ctx dst offset).1).countP Event.isReadAt = 0 ∧
    (callsSince s (Read env s ctx dst offset).1).countP Event.isInodeRead = 1 ∧
    (callsSince s (Read env s ctx dst offset).1).countP Event.isDestroy
      = s.reader.toList.length := by
  cases hr : s.reader <;>
    simp [Read, tryEnsureReader, hdirty, hr, State.inodeLock, State.inodeUnlock,
      State.destroyReader, State.emit, callsSince, List.countP_cons, Event.isConstruct,
      Event.isReadAt, Event.isInodeRead, Event.isDestroy]

/-- Claim C3 at a dirty inode whose handle holds reader 3: the reader is destroyed, the
inode serves the read and its 7 bytes are returned. -/
theorem Read_dirty_witness :
    (demoHandle (some 3) false 4 1 true).inode.SourceGenerationIsAuthoritative = false ∧
    (Read demoEnv (demoHandle (some 3) false 4 1 true) () () 0).1.trace
      = [Event.inodeLock, Event.readerDestroy 3, Event.inodeRead () () 0,
          Event.inodeUnlock] ∧
    (Read demoEnv (demoHandle (some 3) false 4 1 true) () () 0).1.reader = none ∧
    (Read demoEnv (demoHandle (some 3) false 4 1 true) () () 0).2 = (7, none) :=
  ⟨rfl, (Read_dirty demoEnv (demoHandle (some 3) false 4 1 true) () () 0 rfl).1,
    (Read_dirty demoEnv (demoHandle (some 3) false 4 1 true) () () 0 rfl).2.1,
    (Read_dirty demoEnv (demoHandle (some 3) false 4 1 true) () () 0 rfl).2.2.1⟩

/-- Claim C4: on a clean inode, a handle whose reader is bound to the generation the inode
reports gets no error from `tryEnsureReader`, which changes nothing: the same reader
stays, nothing is destroyed, nothing is constructed.  Hence any number of consecutive
reads with the inode unchanged keep that reader, destroy nothing and construct at most
one reader in total. -/
theorem tryEnsureReader_fresh (env : Env ρ β γ δ) (s : State ρ β γ δ) (r : ρ)
    (hclean : s.inode.SourceGenerationIsAuthoritative = true)
    (hr : s.reader = some r)
    (hgen : boundGeneration env r = s.inode.SourceGeneration) :
    tryEnsureReader env s = (s, none) ∧
    (callsSince s (tryEnsureReader env s).1).countP Event.isDestroy = 0 ∧
    (callsSince s (tryEnsureReader env s).1).countP Event.isConstruct = 0 ∧
    ∀ reqs : List (γ × δ × Int),
      (ReadAll env s reqs).1.reader = some r ∧
      (callsSince s (ReadAll env s reqs).1).countP Event.isDestroy = 0 ∧
      (callsSince s (ReadAll env s reqs).1).countP Event.isConstruct ≤ 1 := by
  have hobj : (env.Object r).Generation = s.inode.SourceGeneration.Object := by
    rw [← hgen]; rfl
  have h1 : tryEnsureReader env s = (s, none) := by
    simp [tryEnsureReader, hclean, hr, hobj]
  refine ⟨h1, ?_, ?_, ?_⟩
  · simp [h1, callsSince]
  · simp [h1, callsSince]
  · intro reqs
    obtain ⟨hreader, evs, htrace, hc, hd⟩ := ReadAll_fresh env r reqs s hclean hr hobj
    refine ⟨hreader, ?_, ?_⟩
    · simp [callsSince, htrace, hd]
    · simp [callsSince, htrace, hc]

/-- Claim C4 at a reader of generation (4, 1) on a clean inode of generation (4, 1):
`tryEnsureReader` changes nothing, and three reads keep the reader and construct none. -/
theorem tryEnsureReader_fresh_witness :
    (demoHandle (some 4) true 4 1 true).inode.SourceGenerationIsAuthoritative = true ∧
    (demoHandle (some 4) true 4 1 true).reader = some 4 ∧
    boundGeneration demoEnv 4 = (demoHandle (some 4) true 4 1 true).inode.SourceGeneration ∧
    tryEnsureReader demoEnv (demoHandle (some 4) true 4 1 true)
      = (demoHandle (some 4) true 4 1 true, none) ∧
    (ReadAll demoEnv (demoHandle (some 4) true 4 1 true)
      [((), (), 0), ((), (), 10), ((), (), 100)]).1.reader = some 4 ∧
    (callsSince (demoHandle (some 4) true 4 1 true)
      (ReadAll demoEnv (demoHandle (some 4) true 4 1 true)
        [((), (), 0), ((), (), 10), ((), (), 100)]).1).countP Event.isConstruct ≤ 1 :=
  ⟨rfl, rfl, rfl,
    (tryEnsureReader_fresh demoEnv (demoHandle (some 4) true 4 1 true) 4 rfl rfl rfl).1,
    ((tryEnsureReader_fresh demoEnv (demoHandle (some 4) true 4 1 true) 4 rfl rfl rfl).2.2.2
      [((), (), 0), ((), (), 10), ((), (), 100)]).1,
    ((tryEnsureReader_fresh demoEnv (demoHandle (some 4) true 4 1 true) 4 rfl rfl rfl).2.2.2
      [((), (), 0), ((), (), 10), ((), (), 100)]).2.2⟩

/-! ## The file handle: errors -/

/-- Claim C5: on a clean inode, when a reader has to be built (the handle has none, or has
one at another content generation) and `NewRandomReader` fails with `e`, `Read` returns
`n = 0` and `e` wrapped twice, with the message `tryEnsureReader: NewRandomReader: `
followed by the message of `e`, and unwrapping twice gives `e` back; no reader and no
inode is read from; the handle is left without a reader and the inode unlocked; and the
next `Read` calls `NewRandomReader` again. -/
theorem Read_construction_failure (env : Env ρ β γ δ) (s : State ρ β γ δ) (ctx : γ) (dst : δ)
    (offset : Int) (e : GoError)
    (hclean : s.inode.SourceGenerationIsAuthoritative = true)
    (hneed : ∀ r, s.reader = some r →
      (env.Object r).Generation ≠ s.inode.SourceGeneration.Object)
    (hfail : env.NewRandomReader
        (s.trace ++ Event.inodeLock :: s.reader.toList.map Event.readerDestroy)
        s.inode.Source s.inode.Bucket = Except.error e) :
    (Read env s ctx dst offset).2
      = (0, some (GoError.wrapf "tryEnsureReader: " (GoError.wrapf "NewRandomReader: " e))) ∧
    (GoError.wrapf "tryEnsureReader: " (GoError.wrapf "NewRandomReader: " e)).Error
      = "tryEnsureReader: NewRandomReader: " ++ e.Error ∧
    (GoError.wrapf "tryEnsureReader: " (GoError.wrapf "NewRandomReader: " e)).Unwrap.bind
      GoError.Unwrap = some e ∧
    (callsSince s (Read env s ctx dst offset).1).countP Event.isReadAt = 0 ∧
    (callsSince s (Read env s ctx dst offset).1).countP Event.isInodeRead = 0 ∧
    (Read env s ctx dst offset).1.reader = none ∧
    (Read env s ctx dst offset).1.inode.locked = false ∧
    (∀ (ctx2 : γ) (dst2 : δ) (offset2 : Int), ∃ rest,
      (Read env (Read env s ctx dst offset).1 ctx2 dst2 offset2).1.trace
        = (Read env s ctx dst offset).1.trace ++ (Event.inodeLock
            :: Event.NewRandomReader s.inode.Source s.inode.Bucket :: rest)) := by
  have hmsg : (GoError.wrapf "tryEnsureReader: " (GoError.wrapf "NewRandomReader: " e)).Error
      = "tryEnsureReader: NewRandomReader: " ++ e.Error := by
    simp only [GoError.Error]
    rw [← String.append_assoc]
    rfl
  have hout : Read env s ctx dst offset
      = ({ reader := none
           inode := { s.inode with locked := false }
           trace := s.trace ++ Event.inodeLock :: (s.reader.toList.map Event.readerDestroy
              ++ [Event.NewRandomReader s.inode.Source s.inode.Bucket, Event.inodeUnlock]) },
          (0, some (GoError.wrapf "tryEnsureReader: "
            (GoError.wrapf "NewRandomReader: " e)))) := by
    cases hr : s.reader with
    | none =>
      rw [hr] at hfail
      have hens : tryEnsureReader env s.inodeLock
          = ((s.inodeLock).emit (Event.NewRandomReader s.inode.Source s.inode.Bucket),
              some (GoError.wrapf "NewRandomReader: " e)) := by
        simp at hfail
        simp [tryEnsureReader, createReader, State.inodeLock, State.emit, hclean, hr, hfail]
      rw [Read_of_error env s _ ctx dst offset _ hens]
      simp [State.inodeLock, State.inodeUnlock, State.emit, hr]
    | some r =>
      rw [hr] at hfail
      have hstale := hneed r hr
      have hens : tryEnsureReader env s.inodeLock
          = (((s.inodeLock).destroyReader r).emit
                (Event.NewRandomReader s.inode.Source s.inode.Bucket),
              some (GoError.wrapf "NewRandomReader: " e)) := by
        simp at hfail
        simp [tryEnsureReader, createReader, State.inodeLock, State.emit, State.destroyReader,
          hclean, hr, hfail, hstale]
      rw [Read_of_error env s _ ctx dst offset _ hens]
      simp [State.inodeLock, State.inodeUnlock, State.emit, State.destroyReader]
  refine ⟨by rw [hout], hmsg, rfl, ?_, ?_, ?_, ?_, ?_⟩
  · rw [hout]
    cases s.reader <;>
      simp [callsSince, List.countP_cons, Event.isReadAt]
  · rw [hout]
    cases s.reader <;>
      simp [callsSince, List.countP_cons, Event.isInodeRead]
  · rw [hout]
  · rw [hout]
  · intro ctx2 dst2 offset2
    have h := Read_absent_clean env (Read env s ctx dst offset).1 ctx2 dst2 offset2
      (by rw [hout]; exact hclean) (by rw [hout])
    rw [hout] at h ⊢
    exact h

/-- Claim C5 at a clean inode at content generation 4 whose bucket cannot be reached, the
handle holding reader 3: the read returns `0` and the wrapped error, and the handle is
left without a reader. -/
theorem Read_construction_failure_witness :
    (demoHandle (some 3) true 4 1 false).inode.SourceGenerationIsAuthoritative = true ∧
    (Read demoEnv (demoHandle (some 3) true 4 1 false) () () 0).2
      = (0, some (GoError.wrapf "tryEnsureReader: "
          (GoError.wrapf "NewRandomReader: " (GoError.leaf "bucket unreachable")))) ∧
    (GoError.wrapf "tryEnsureReader: "
        (GoError.wrapf "NewRandomReader: " (GoError.leaf "bucket unreachable"))).Error
      = "tryEnsureReader: NewRandomReader: " ++ (GoError.leaf "bucket unreachable").Error ∧
    (Read demoEnv (demoHandle (some 3) true 4 1 false) () () 0).1.reader = none :=
  ⟨rfl,
    (Read_construction_failure demoEnv (demoHandle (some 3) true 4 1 false) () () 0
      (GoError.leaf "bucket unreachable") rfl
      (fun r hr => by
        have h3 : r = 3 := (Option.some.inj hr).symm
        subst h3
        decide)
      rfl).1,
    (Read_construction_failure demoEnv (demoHandle (some 3) true 4 1 false) () () 0
      (GoError.leaf "bucket unreachable") rfl
      (fun r hr => by
        have h3 : r = 3 := (Option.some.inj hr).symm
        subst h3
        decide)
      rfl).2.1,
    (Read_construction_failure demoEnv (demoHandle (some 3) true 4 1 false) () () 0
      (GoError.leaf "bucket unreachable") rfl
      (fun r hr => by
        have h3 : r = 3 := (Option.some.inj hr).symm
        subst h3
        decide)
      rfl).2.2.2.2.2.1⟩

/-- Claim C6: in a `Read` served by the reader of the handle, when `ReadAt` returns
`(n, io.EOF)` so does `Read`, with the sentinel itself and not a wrapped error, and when
`ReadAt` returns `(n, nil)` so does `Read`. -/
theorem Read_reader_eof_or_ok (env : Env ρ β γ δ) (s s2 : State ρ β γ δ) (ctx : γ) (dst : δ)
    (offset : Int) (r : ρ) (n : Int)
    (hens : tryEnsureReader env s.inodeLock = (s2, none)) (hr : s2.reader = some r) :
    (env.ReadAt (s2.trace ++ [Event.inodeUnlock]) r ctx dst offset = (n, some GoError.eof) →
      (Read env s ctx dst offset).2 = (n, some GoError.eof)) ∧
    (env.ReadAt (s2.trace ++ [Event.inodeUnlock]) r ctx dst offset = (n, none) →
      (Read env s ctx dst offset).2 = (n, none)) := by
  constructor <;> intro h <;> simp [Read, hens, hr, State.inodeUnlock, h]

/-- Claim C6 at a handle whose reader is at the generation of its clean inode: a read at
offset 100 returns `(0, io.EOF)` as the reader gave it, a read at offset 0 `(10, nil)`. -/
theorem Read_reader_eof_or_ok_witness :
    tryEnsureReader demoEnv (demoHandle (some 4) true 4 1 true).inodeLock
      = ((demoHandle (some 4) true 4 1 true).inodeLock, none) ∧
    (demoHandle (some 4) true 4 1 true).inodeLock.reader = some 4 ∧
    (Read demoEnv (demoHandle (some 4) true 4 1 true) () () 100).2
      = (0, some GoError.eof) ∧
    (Read demoEnv (demoHandle (some 4) true 4 1 true) () () 0).2 = (10, none) :=
  ⟨rfl, rfl,
    (Read_reader_eof_or_ok demoEnv (demoHandle (some 4) true 4 1 true)
      (demoHandle (some 4) true 4 1 true).inodeLock () () 100 4 0 rfl rfl).1 rfl,
    (Read_reader_eof_or_ok demoEnv (demoHandle (some 4) true 4 1 true)
      (demoHandle (some 4) true 4 1 true).inodeLock () () 0 4 10 rfl rfl).2 rfl⟩

/-- Claim C7, amended: when the `ReadAt` of the reader fails with an error `e` other than
`io.EOF`, `Read` returns the byte count of `ReadAt` and `e` wrapped with the call site
`fh.reader.ReadAt`, never `e` itself; on the fallback path `Read` returns what the own
`Read` of the inode returned, as it is. -/
theorem Read_failure_wrapping (env : Env ρ β γ δ) (s s2 : State ρ β γ δ) (ctx : γ) (dst : δ)
    (offset : Int) (hens : tryEnsureReader env s.inodeLock = (s2, none)) :
    (∀ r n e, s2.reader = some r →
        env.ReadAt (s2.trace ++ [Event.inodeUnlock]) r ctx dst offset = (n, some e) →
        e ≠ GoError.eof →
        (Read env s ctx dst offset).2 = (n, some (GoError.wrapf "fh.reader.ReadAt: " e)) ∧
        (GoError.wrapf "fh.reader.ReadAt: " e).Error = "fh.reader.ReadAt: " ++ e.Error ∧
        (GoError.wrapf "fh.reader.ReadAt: " e).Unwrap = some e ∧
        GoError.wrapf "fh.reader.ReadAt: " e ≠ e) ∧
    (s2.reader = none →
        (Read env s ctx dst offset).2 = env.inodeRead s2.trace s2.inode ctx dst offset) := by
  constructor
  · intro r n e hr h hne
    refine ⟨?_, rfl, rfl, wrapf_ne_self _ _⟩
    cases e <;> simp_all [Read, State.inodeUnlock]
  · intro hr
    simp [Read, hens, hr]

/-- Claim C7, amended, at a handle whose reader is at the generation of its clean inode: a
read at a negative offset fails in `ReadAt`, and `Read` returns that error wrapped. -/
theorem Read_failure_wrapping_witness :
    tryEnsureReader demoEnv (demoHandle (some 4) true 4 1 true).inodeLock
      = ((demoHandle (some 4) true 4 1 true).inodeLock, none) ∧
    (Read demoEnv (demoHandle (some 4) true 4 1 true) () () (-1)).2
      = (0, some (GoError.wrapf "fh.reader.ReadAt: " (GoError.leaf "negative offset"))) :=
  ⟨rfl,
    ((Read_failure_wrapping demoEnv (demoHandle (some 4) true 4 1 true)
      (demoHandle (some 4) true 4 1 true).inodeLock () () (-1) rfl).1 4 0
      (GoError.leaf "negative offset") rfl (by rfl) (by decide)).1⟩

/-- Claim C7 as stated fails on the fallback path: on a dirty inode whose own `Read`
fails with the error `negative offset`, which is not `io.EOF`, `Read` returns that very
error, wrapped in nothing. -/
theorem Read_fallback_returns_bare_error :
    (demoHandle none false 5 1 true).inode.SourceGenerationIsAuthoritative = false ∧
    demoEnv.inodeRead [Event.inodeLock] (demoHandle none false 5 1 true).inodeLock.inode
      () () (-1) = (0, some (GoError.leaf "negative offset")) ∧
    GoError.leaf "negative offset" ≠ GoError.eof ∧
    (Read demoEnv (demoHandle none false 5 1 true) () () (-1)).1.trace
      = [Event.inodeLock, Event.inodeRead () () (-1), Event.inodeUnlock] ∧
    (Read demoEnv (demoHandle none false 5 1 true) () () (-1)).2
      = (0, some (GoError.leaf "negative offset")) ∧
    (∀ pre : String, (Read demoEnv (demoHandle none false 5 1 true) () () (-1)).2.2
      ≠ some (GoError.wrapf pre (GoError.leaf "negative offset"))) := by
  refine ⟨rfl, rfl, by decide, rfl, rfl, ?_⟩
  intro pre h
  have h2 : some (GoError.leaf "negative offset")
      = some (GoError.wrapf pre (GoError.leaf "negative offset")) := h
  exact GoError.noConfusion (Option.some.inj h2)

/-! ## The file handle: the inode lock -/

/-- Claim C8: every `Read` takes the inode lock exactly once and releases it exactly once,
and the lock is not held when it returns.  A call of `ReadAt` comes after the lock was
taken and released, with the lock not held, and is the last call.  A call of the own
`Read` of the inode comes after the lock was taken, with the lock held, and the release
is the one call after it. -/
theorem Read_lock_discipline (env : Env ρ β γ δ) (s : State ρ β γ δ) (ctx : γ) (dst : δ)
    (offset : Int) :
    (Read env s ctx dst offset).1.trace
      = s.trace ++ callsSince s (Read env s ctx dst offset).1 ∧
    (callsSince s (Read env s ctx dst offset).1).countP Event.isLock = 1 ∧
    (callsSince s (Read env s ctx dst offset).1).countP Event.isUnlock = 1 ∧
    (Read env s ctx dst offset).1.inode.locked = false ∧
    lockHeld s.inode.locked (callsSince s (Read env s ctx dst offset).1) = false ∧
    (∀ pre e post, callsSince s (Read env s ctx dst offset).1 = pre ++ e :: post →
      e.isReadAt = true →
      lockHeld s.inode.locked pre = false ∧ Event.inodeLock ∈ pre ∧
        Event.inodeUnlock ∈ pre ∧ post = []) ∧
    (∀ pre e post, callsSince s (Read env s ctx dst offset).1 = pre ++ e :: post →
      e.isInodeRead = true →
      lockHeld s.inode.locked pre = true ∧ Event.inodeLock ∈ pre ∧
        post = [Event.inodeUnlock]) := by
  obtain ⟨mid, tail, htr, hlocked, hmid, htail⟩ := Read_calls env s ctx dst offset
  have hevs : callsSince s (Read env s ctx dst offset).1 = Event.inodeLock :: mid ++ tail := by
    simp [callsSince, htr]
  have hN : ∀ a ∈ mid, a.isLock = false ∧ a.isUnlock = false ∧ a.isReadAt = false ∧
      a.isInodeRead = false := by
    rcases hmid with rfl | ⟨r, rfl⟩ | rfl | ⟨r, rfl⟩ <;>
      simp [Event.isLock, Event.isUnlock, Event.isReadAt, Event.isInodeRead]
  have hheld : ∀ h : Bool, lockHeld h mid = h :=
    lockHeld_neutral mid (fun a ha => ⟨(hN a ha).1, (hN a ha).2.1⟩)
  have hcl : mid.countP Event.isLock = 0 :=
    List.countP_eq_zero.mpr (fun a ha => by simp [(hN a ha).1])
  have hcu : mid.countP Event.isUnlock = 0 :=
    List.countP_eq_zero.mpr (fun a ha => by simp [(hN a ha).2.1])
  rw [hevs]
  refine ⟨by rw [htr], ?_, ?_, hlocked, ?_, ?_, ?_⟩
  · rcases htail with rfl | ⟨r, rfl⟩ | rfl <;>
      simp [List.countP_cons, List.countP_append, hcl, Event.isLock]
  · rcases htail with rfl | ⟨r, rfl⟩ | rfl <;>
      simp [List.countP_cons, List.countP_append, hcu, Event.isUnlock]
  · have hstep : ∀ l : List (Event ρ β γ δ),
        lockHeld s.inode.locked (Event.inodeLock :: mid ++ l) = lockHeld true l := by
      intro l
      rw [show Event.inodeLock :: mid ++ l = [Event.inodeLock] ++ (mid ++ l) from rfl,
        lockHeld_append, lockHeld_append, hheld]
      rfl
    rcases htail with rfl | ⟨r, rfl⟩ | rfl <;> rw [hstep] <;> rfl
  · intro pre e post h he
    rcases htail with rfl | ⟨r, rfl⟩ | rfl
    · have hmem : e ∈ Event.inodeLock :: mid ++ [Event.inodeUnlock] := by rw [h]; simp
      simp only [List.cons_append, List.mem_cons, List.mem_append, List.mem_singleton,
        List.not_mem_nil, or_false] at hmem
      rcases hmem with rfl | hm | rfl
      · simp [Event.isReadAt] at he
      · rw [(hN e hm).2.2.1] at he; exact absurd he (by decide)
      · simp [Event.isReadAt] at he
    · obtain ⟨hpre, _, hpost⟩ := append_cons_unique Event.isReadAt
        (Event.readerReadAt r ctx dst offset) e
        (Event.inodeLock :: mid ++ [Event.inodeUnlock]) [] pre post (by simpa using h)
        (by
          intro a ha
          simp only [List.cons_append, List.mem_cons, List.mem_append, List.mem_singleton,
            List.not_mem_nil, or_false] at ha
          rcases ha with rfl | hm | rfl
          · rfl
          · exact (hN a hm).2.2.1
          · rfl)
        (by simp) he
      subst hpre hpost
      refine ⟨?_, by simp, by simp, rfl⟩
      rw [show Event.inodeLock :: mid ++ [Event.inodeUnlock]
          = [Event.inodeLock] ++ (mid ++ [Event.inodeUnlock]) from rfl,
        lockHeld_append, lockHeld_append, hheld]
      rfl
    · have hmem : e ∈ Event.inodeLock :: mid
          ++ [Event.inodeRead ctx dst offset, Event.inodeUnlock] := by rw [h]; simp
      simp only [List.cons_append, List.mem_cons, List.mem_append, List.mem_singleton,
        List.not_mem_nil, or_false] at hmem
      rcases hmem with rfl | hm | rfl | rfl
      · simp [Event.isReadAt] at he
      · rw [(hN e hm).2.2.1] at he; exact absurd he (by decide)
      · simp [Event.isReadAt] at he
      · simp [Event.isReadAt] at he
  · intro pre e post h he
    rcases htail with rfl | ⟨r, rfl⟩ | rfl
    · have hmem : e ∈ Event.inodeLock :: mid ++ [Event.inodeUnlock] := by rw [h]; simp
      simp only [List.cons_append, List.mem_cons, List.mem_append, List.mem_singleton,
        List.not_mem_nil, or_false] at hmem
      rcases hmem with rfl | hm | rfl
      · simp [Event.isInodeRead] at he
      · rw [(hN e hm).2.2.2] at he; exact absurd he (by decide)
      · simp [Event.isInodeRead] at he
    · have hmem : e ∈ Event.inodeLock :: mid
          ++ [Event.inodeUnlock, Event.readerReadAt r ctx dst offset] := by rw [h]; simp
      simp only [List.cons_append, List.mem_cons, List.mem_append, List.mem_singleton,
        List.not_mem_nil, or_false] at hmem
      rcases hmem with rfl | hm | rfl | rfl
      · simp [Event.isInodeRead] at he
      · rw [(hN e hm).2.2.2] at he; exact absurd he (by decide)
      · simp [Event.isInodeRead] at he
      · simp [Event.isInodeRead] at he
    · obtain ⟨hpre, _, hpost⟩ := append_cons_unique Event.isInodeRead
        (Event.inodeRead ctx dst offset) e
        (Event.inodeLock :: mid) [Event.inodeUnlock] pre post (by simpa using h)
        (by
          intro a ha
          simp only [List.mem_cons] at ha
          rcases ha with rfl | hm
          · rfl
          · exact (hN a hm).2.2.2)
        (by simp [Event.isInodeRead]) he
      subst hpre hpost
      refine ⟨?_, by simp, rfl⟩
      rw [show Event.inodeLock :: mid = [Event.inodeLock] ++ mid from rfl,
        lockHeld_append, hheld]
      rfl

end handleTheorems

end Gcsfuse
